import Mathlib

/-!
Shallow embedding of the hackvento evaluation dashboard's score store and
aggregation logic.

Sources embedded:
* `src/app/api/scores/route.ts` — the relational (supabase) score route:
  `toEntry`, `rowsToStore`, `GET` (judge-scoped read), `POST` (authenticated
  upsert keyed on `(team_id, judge_email)`), modelled by `toEntry`,
  `rowsToStore`, `getScores`, `postScores`.
* the file-backed score route (repository file of unknown name): `ensureStore`
  over `data/scores.json`, `GET`, `POST` with a per-team `judges` array keyed
  by `updatedBy`, modelled by `ensureStore`, `getScoresFile`, `postScoresFile`.
* `src/app/admin/page.tsx` — the ranking reduction: `getTeamKey`,
  `getTeamLabel`, `rowScore` and the grouping/sorting reduce, modelled by
  `getTeamKey`, `getTeamLabel`, `rowScore`, `rank`.

Modelling conventions:
* JavaScript `undefined`/`null` is `Option.none`; string truthiness
  (`s ||  t`, empty string falsy) is `strTruthy` / `orStr` / `jsOr`;
  nullish coalescing (`a ?? b`) is `Option.getD`.
* JavaScript object field access and in-place assignment on a plain object
  (which preserves key insertion order) is an association list with
  `jsGet` / `jsSet`.
* A numeric column value is abstracted as `Option Int`: `some n` when
  `Number(value)` is a finite integer, `none` when the coercion yields a
  non-finite number (`NaN`, `Infinity`); addition propagates `none` the way
  IEEE addition propagates non-finite operands (`jsAdd`).
* `String.prototype.toLowerCase` is `lowerStr` (per-character `Char.toLower`).
* The relational backend's `upsert(..., onConflict: "team_id,judge_email")`
  replaces the payload columns of the conflicting row and otherwise inserts;
  the three legacy team columns absent from the payload keep their old values
  (`applyPayload`).
-/

/-- JavaScript string truthiness for a possibly-absent string: `undefined`,
`null` and `""` are falsy. -/
def strTruthy : Option String → Bool
  | none => false
  | some s => decide (s ≠ "")

/-- The JavaScript idiom `a || d` for a possibly-absent string with a string
default: keeps `a` when it is a non-empty string, else yields `d`. -/
def orStr (a : Option String) (d : String) : String :=
  match a with
  | some s => if s = "" then d else s
  | none => d

/-- The JavaScript idiom `a || b` on two possibly-absent strings. -/
def jsOr (a b : Option String) : Option String :=
  if strTruthy a then a else b

/-- Model of the JavaScript `toLowerCase` string method, restricted to the
simple per-character mapping (`Char.toLower`). -/
def lowerStr (s : String) : String :=
  String.mk (s.data.map Char.toLower)

/-- Addition of two JavaScript numbers abstracted to finite-or-not:
a non-finite operand makes the sum non-finite. -/
def jsAdd : Option Int → Option Int → Option Int
  | some a, some b => some (a + b)
  | _, _ => none

/-- JavaScript object property read (`obj[k]`) on an insertion-ordered
association list. -/
def jsGet {α : Type} (s : List (String × α)) (k : String) : Option α :=
  (s.find? (fun p => decide (p.1 = k))).map (fun p => p.2)

/-- JavaScript object property write (`obj[k] = v`): replaces the value in
place when the key exists (keeping its position), else appends the pair. -/
def jsSet {α : Type} (s : List (String × α)) (k : String) (v : α) :
    List (String × α) :=
  if s.any (fun p => decide (p.1 = k)) then
    s.map (fun p => if p.1 = k then (k, v) else p)
  else s ++ [(k, v)]

/-- One judge's evaluation of one team (`ScoreEntry` in `src/types.ts`):
six sub-scores, optional notes, timestamp and judge identity. -/
structure ScoreEntry where
  problemRelevance : Option Int
  technicalFeasibility : Option Int
  statementAlignment : Option Int
  creativity : Option Int
  presentation : Option Int
  googleTechUse : Option Int
  notes : Option String
  updatedAt : Option String
  updatedBy : Option String
  updatedByName : Option String
  deriving DecidableEq, Repr

/-- The merged per-team record: the most recent entry spread at top level plus
an optional `judges` array (`ScoreEntry & { judges?: ScoreEntry[] }`). -/
structure TeamRecord where
  entry : ScoreEntry
  judges : Option (List ScoreEntry)
  deriving DecidableEq, Repr

/-- The JSON score store: a team-identifier-keyed object of team records. -/
abbrev ScoreStore : Type := List (String × TeamRecord)

/-- An authenticated session's user: `session.user.email` and
`session.user.name`, either possibly absent. -/
structure User where
  email : Option String
  name : Option String
  deriving DecidableEq, Repr

/-- The `session.user.email || session.user.name || "unknown"` idiom. -/
def userEmailOf (u : User) : String :=
  orStr u.email (orStr u.name "unknown")

/-- The `session.user.name || session.user.email || "unknown"` idiom. -/
def userNameOf (u : User) : String :=
  orStr u.name (orStr u.email "unknown")

/-- State of the file backend's `data/scores.json`: absent, present with a
parsed store, or failing to read with an error other than `ENOENT`. -/
inductive Fs where
  | missing : Fs
  | stored (s : ScoreStore) : Fs
  | broken : Fs
  deriving DecidableEq

/-- The file route's `ensureStore`: reads the store file; on `ENOENT` it
creates the file with an empty object and returns the empty store; any other
read error is rethrown. -/
def ensureStore : Fs → Except Unit (ScoreStore × Fs)
  | Fs.missing => Except.ok ([], Fs.stored [])
  | Fs.stored s => Except.ok (s, Fs.stored s)
  | Fs.broken => Except.error ()

/-- Request body of the file route's `POST`:
`{ teamId?: string; scores?: ScoreEntry }`. -/
structure FileBody where
  teamId : Option String
  scores : Option ScoreEntry
  deriving DecidableEq, Repr

/-- Outcome of a file-route handler: HTTP status, JSON store body when one is
returned, and the file state afterwards. -/
structure FileResult where
  status : Nat
  body : Option ScoreStore
  fs : Fs
  deriving DecidableEq

/-- The file route's `GET`: `ensureStore` then return the store; an uncaught
read error surfaces as a server error. -/
def getScoresFile (fs : Fs) : FileResult :=
  match ensureStore fs with
  | Except.ok (s, fs1) => { status := 200, body := some s, fs := fs1 }
  | Except.error _ => { status := 500, body := none, fs := fs }

/-- The entry actually persisted by the file route's `POST`: the submitted
scores with `updatedBy`, `updatedByName` overwritten from the session and
`updatedAt` defaulted to the current time. -/
def mkFileEntry (sc : ScoreEntry) (uEmail uName now : String) : ScoreEntry :=
  { sc with
      updatedBy := some uEmail
      updatedByName := some uName
      updatedAt := some (sc.updatedAt.getD now) }

/-- The file route `POST`'s prior-judges extraction:
`Array.isArray(existing?.judges) ? existing.judges : existing ? [existing] : []`. -/
def priorJudgesOf (store : ScoreStore) (tid : String) : List ScoreEntry :=
  match jsGet store tid with
  | none => []
  | some tr =>
    match tr.judges with
    | some js => js
    | none => [tr.entry]

/-- The file route `POST`'s store mutation: drop the saving judge's previous
entry from the team's judges, append the new entry, and store it spread at top
level with the refreshed judges array. -/
def upsertFileStore (store : ScoreStore) (tid : String) (e : ScoreEntry)
    (uEmail : String) : ScoreStore :=
  let filtered :=
    (priorJudgesOf store tid).filter (fun j => decide (j.updatedBy ≠ some uEmail))
  jsSet store tid { entry := e, judges := some (filtered ++ [e]) }

/-- The file route's `POST`: reject unauthenticated callers with 401, reject a
missing/empty `teamId` or missing `scores` with 400, then read-modify-write the
whole store file and return the updated store. -/
def postScoresFile (sess : Option User) (body : FileBody) (now : String)
    (fs : Fs) : FileResult :=
  match sess with
  | none => { status := 401, body := none, fs := fs }
  | some u =>
    match body.teamId, body.scores with
    | some tid, some sc =>
      if tid = "" then { status := 400, body := none, fs := fs }
      else
        match ensureStore fs with
        | Except.error _ => { status := 500, body := none, fs := fs }
        | Except.ok (store, _) =>
          let uEmail := userEmailOf u
          let e := mkFileEntry sc uEmail (userNameOf u) now
          let store2 := upsertFileStore store tid e uEmail
          { status := 200, body := some store2, fs := Fs.stored store2 }
    | _, _ => { status := 400, body := none, fs := fs }

/-- A row of the relational `scores` table, as seen through the JavaScript
client: the columns written by the route plus the three legacy team-key
columns the admin page also probes. -/
structure Row where
  team_id : Option String
  team_name : Option String
  team : Option String
  teamId : Option String
  teamid : Option String
  judge_email : Option String
  judge_name : Option String
  problem_relevance : Option Int
  technical_feasibility : Option Int
  statement_alignment : Option Int
  creativity : Option Int
  presentation : Option Int
  google_tech_use : Option Int
  notes : Option String
  updated_at : Option String
  deriving DecidableEq, Repr

/-- The relational route's `toEntry`: camel-cases a row, defaults notes to
`""`, and lowercases the judge email when that is possible and non-falsy. -/
def toEntry (row : Row) : ScoreEntry :=
  { problemRelevance := row.problem_relevance
    technicalFeasibility := row.technical_feasibility
    statementAlignment := row.statement_alignment
    creativity := row.creativity
    presentation := row.presentation
    googleTechUse := row.google_tech_use
    notes := some (orStr row.notes "")
    updatedAt := row.updated_at
    updatedBy :=
      match row.judge_email with
      | none => none
      | some s => if lowerStr s = "" then some s else some (lowerStr s)
    updatedByName := row.judge_name }

/-- The relational route's grouping key for `rowsToStore`:
`row.team_id ?? row.team_name ?? "unknown-team"`. -/
def rowKey (row : Row) : String :=
  match row.team_id with
  | some s => s
  | none => row.team_name.getD "unknown-team"

/-- One step of `rowsToStore`'s reduce: append the row's entry to its team's
judges array (starting one when absent) and spread the entry at top level. -/
def rowsToStoreStep (byTeam : ScoreStore) (row : Row) : ScoreStore :=
  let e := toEntry row
  let key := rowKey row
  let judges : List ScoreEntry :=
    match jsGet byTeam key with
    | some tr =>
      match tr.judges with
      | some js => js ++ [e]
      | none => [e]
    | none => [e]
  jsSet byTeam key { entry := e, judges := some judges }

/-- The relational route's `rowsToStore`: fold the rows into a team-keyed
store. -/
def rowsToStore (rows : List Row) : ScoreStore :=
  rows.foldl rowsToStoreStep []

/-- Outcome of a relational-route handler: HTTP status, JSON store body when
one is returned, and the table contents afterwards. -/
structure SupaResult where
  status : Nat
  body : Option ScoreStore
  table : List Row
  deriving DecidableEq

/-- The relational route's `GET`: an unauthenticated or keyless session gets
an empty store; otherwise select the rows whose `judge_email` equals the
session's lowercased key and merge them. -/
def getScores (sess : Option User) (t : List Row) : SupaResult :=
  match sess with
  | none => { status := 200, body := some [], table := t }
  | some u =>
    match jsOr u.email u.name with
    | none => { status := 200, body := some [], table := t }
    | some raw =>
      if raw = "" then { status := 200, body := some [], table := t }
      else
        let jk := lowerStr raw
        { status := 200
          body := some (rowsToStore
            (t.filter (fun r => decide (r.judge_email = some jk))))
          table := t }

/-- Request body of the relational route's `POST`:
`{ teamId?: string; teamName?: string; scores?: ScoreEntry }`. -/
structure SupaBody where
  teamId : Option String
  teamName : Option String
  scores : Option ScoreEntry
  deriving DecidableEq, Repr

/-- The row payload the relational `POST` upserts (the variant carrying
`team_name`, used when the schema has that column): team key fallbacks,
lowercased judge email, notes defaulted to `""`, timestamp defaulted to now. -/
def mkPayload (u : User) (body : SupaBody) (sc : ScoreEntry) (now : String) :
    Row :=
  let teamKey := orStr body.teamName (orStr body.teamId "unknown")
  { team_id := some (body.teamId.getD teamKey)
    team_name := some (body.teamName.getD teamKey)
    team := none
    teamId := none
    teamid := none
    judge_email := some (lowerStr (userEmailOf u))
    judge_name := some (userNameOf u)
    problem_relevance := sc.problemRelevance
    technical_feasibility := sc.technicalFeasibility
    statement_alignment := sc.statementAlignment
    creativity := sc.creativity
    presentation := sc.presentation
    google_tech_use := sc.googleTechUse
    notes := some (orStr sc.notes "")
    updated_at := some (sc.updatedAt.getD now) }

/-- Conflict test of the relational upsert's `onConflict: "team_id,judge_email"`
unique key. -/
def sameKey (x p : Row) : Bool :=
  decide (x.team_id = p.team_id ∧ x.judge_email = p.judge_email)

/-- Effect of the conflict-branch update on one row: every payload column is
overwritten; the legacy team columns absent from the payload are kept. -/
def applyPayload (x p : Row) : Row :=
  { p with team := x.team, teamId := x.teamId, teamid := x.teamid }

/-- The relational route's `tryUpsert`: replace the conflicting row(s) on the
`(team_id, judge_email)` key, else insert the payload row. -/
def tryUpsert (t : List Row) (p : Row) : List Row :=
  if t.any (fun x => sameKey x p) then
    t.map (fun x => if sameKey x p then applyPayload x p else x)
  else t ++ [p]

/-- The relational route's `POST`: 401 without a session, 400 when both team
keys are falsy or the scores payload is absent, otherwise upsert the payload
row and return the judge-scoped merged store. -/
def postScores (sess : Option User) (body : SupaBody) (now : String)
    (t : List Row) : SupaResult :=
  match sess with
  | none => { status := 401, body := none, table := t }
  | some u =>
    match body.scores with
    | none => { status := 400, body := none, table := t }
    | some sc =>
      if strTruthy body.teamId || strTruthy body.teamName then
        let p := mkPayload u body sc now
        let t2 := tryUpsert t p
        let jk := lowerStr (userEmailOf u)
        { status := 200
          body := some (rowsToStore
            (t2.filter (fun r => decide (r.judge_email = some jk))))
          table := t2 }
      else { status := 400, body := none, table := t }

/-- One output line of the admin ranking. -/
structure RankingRow where
  teamId : String
  teamName : String
  total : Int
  judgesCount : Nat
  deriving DecidableEq, Repr

/-- The admin page's `getTeamKey`: first truthy of `team_id`, `team_name`,
`team`, `teamId`, `teamid`, else the literal `"Unknown Team"`. -/
def getTeamKey (r : Row) : String :=
  orStr r.team_id (orStr r.team_name (orStr r.team
    (orStr r.teamId (orStr r.teamid "Unknown Team"))))

/-- The admin page's `getTeamLabel`: first truthy of `team_name`, `team`,
`teamId`, `teamid`, else the already-computed key. -/
def getTeamLabel (r : Row) (key : String) : String :=
  orStr r.team_name (orStr r.team (orStr r.teamId (orStr r.teamid key)))

/-- The admin page's `rowScore`: the sum of the six numeric columns, non-finite
as soon as one coercion is non-finite. -/
def rowScore (r : Row) : Option Int :=
  jsAdd (jsAdd (jsAdd (jsAdd (jsAdd r.problem_relevance
    r.technical_feasibility) r.statement_alignment) r.creativity)
    r.presentation) r.google_tech_use

/-- The contribution a row makes to its team's total:
`Number.isFinite(score) ? score : 0`. -/
def rowScoreD (r : Row) : Int :=
  (rowScore r).getD 0

/-- The plain sum of the six sub-score values of a row (meaningful when all
six are finite). -/
def subSum (r : Row) : Int :=
  r.problem_relevance.getD 0 + r.technical_feasibility.getD 0 +
    r.statement_alignment.getD 0 + r.creativity.getD 0 +
    r.presentation.getD 0 + r.google_tech_use.getD 0

/-- The in-place accumulator update of the admin page's reduce:
`acc[key].total += score guard; acc[key].judgesCount += 1`, applied to the
line of the matching team and leaving every other line unchanged. -/
def bumpTeam (k : String) (d : Int) (g : RankingRow) : RankingRow :=
  if g.teamId = k then
    { g with total := g.total + d, judgesCount := g.judgesCount + 1 }
  else g

/-- One step of the admin page's grouping reduce: create the team's
accumulator line on first sight, then add the row's guarded score and bump the
judge count. -/
def rankStep (acc : List RankingRow) (r : Row) : List RankingRow :=
  let k := getTeamKey r
  if acc.any (fun g => decide (g.teamId = k)) then
    acc.map (bumpTeam k (rowScoreD r))
  else
    acc ++ [{ teamId := k, teamName := getTeamLabel r k,
              total := rowScoreD r, judgesCount := 1 }]

/-- The admin page's ranking: group the rows per team key, then sort the lines
descending by total (`.sort((a, b) => b.total - a.total)`). -/
def rank (rows : List Row) : List RankingRow :=
  (rows.foldl rankStep []).mergeSort (fun a b => decide (b.total ≤ a.total))

/-- Total of the rows grouped under key `k`, each row contributing its guarded
score. -/
def teamTotal (rows : List Row) (k : String) : Int :=
  ((rows.filter (fun r => decide (getTeamKey r = k))).map rowScoreD).sum

/-- Number of rows grouped under key `k`. -/
def teamCount (rows : List Row) (k : String) : Nat :=
  (rows.filter (fun r => decide (getTeamKey r = k))).length

/-- The accumulator line for key `k`, when present. -/
def findTeam (l : List RankingRow) (k : String) : Option RankingRow :=
  l.find? (fun g => decide (g.teamId = k))

/-- The result of one concrete accepted save whose `problemRelevance`
sub-score is 99, far outside `[0,15]`. -/
def oversizedSave : SupaResult :=
  postScores (some { email := some "judge@x", name := some "Judge" })
    { teamId := some "t1", teamName := some "Team One",
      scores := some
        { problemRelevance := some 99, technicalFeasibility := some 1,
          statementAlignment := some 2, creativity := some 3,
          presentation := some 4, googleTechUse := some 5,
          notes := none, updatedAt := none, updatedBy := none,
          updatedByName := none } }
    "2025-01-01" []

/-- Sample judge session used by concrete instantiations. -/
def wUser : User := { email := some "j@x", name := some "J" }

/-- Sample first submission used by concrete instantiations. -/
def wEntry1 : ScoreEntry :=
  { problemRelevance := some 5, technicalFeasibility := some 5,
    statementAlignment := some 5, creativity := some 5,
    presentation := some 5, googleTechUse := some 5,
    notes := none, updatedAt := none, updatedBy := none,
    updatedByName := none }

/-- Sample second submission used by concrete instantiations. -/
def wEntry2 : ScoreEntry := { wEntry1 with problemRelevance := some 10 }

/-- All entries reachable in one team record of a JSON store response. -/
def entriesOfRec (tr : TeamRecord) : List ScoreEntry :=
  tr.entry :: tr.judges.getD []

/-- All entries reachable anywhere in a JSON store response. -/
def storeEntries (s : ScoreStore) : List ScoreEntry :=
  s.flatMap (fun p => entriesOfRec p.2)

/-- Sample stored row of the witness judge. -/
def wRow : Row :=
  { team_id := some "t1", team_name := some "Team One", team := none,
    teamId := none, teamid := none, judge_email := some "j@x",
    judge_name := some "J", problem_relevance := some 5,
    technical_feasibility := some 5, statement_alignment := some 5,
    creativity := some 5, presentation := some 5, google_tech_use := some 5,
    notes := some "", updated_at := some "n" }

/-- Sample stored row of a different judge. -/
def wOtherRow : Row := { wRow with judge_email := some "other@y" }

/-- Sample row for a second team. -/
def wRowT2 : Row :=
  { wRow with team_id := some "t2", problem_relevance := some 10 }

/-- Sample row whose first sub-score does not coerce to a finite number. -/
def wBadRow : Row :=
  { wRow with team_id := some "t2", problem_relevance := none }

/-- The ranking line produced for team `"t2"` from `wRowT2`. -/
def wTopLine : RankingRow :=
  { teamId := "t2", teamName := "Team One", total := 35, judgesCount := 1 }

/-- Sample rows for one team with two different labels. -/
def wRowA : Row :=
  { wRow with team_id := some "t3", team_name := some "Alpha" }

/-- Second judge's row for the same team under another label. -/
def wRowB : Row :=
  { wRow with team_id := some "t3", team_name := some "Beta", problem_relevance := some 10 }

/-- The ranking line for team `"t3"` when `wRowA` comes first. -/
def wLineAlpha : RankingRow :=
  { teamId := "t3", teamName := "Alpha", total := 65, judgesCount := 2 }

/-- The ranking line for team `"t3"` when `wRowB` comes first. -/
def wLineBeta : RankingRow :=
  { teamId := "t3", teamName := "Beta", total := 65, judgesCount := 2 }

/-- The ranking line for team `"t2"` built from the non-finite row alone. -/
def wZeroLine : RankingRow :=
  { teamId := "t2", teamName := "Team One", total := 0, judgesCount := 1 }

/-! ### Association-list lemmas -/

theorem find?_map_set {α : Type} (s : List (String × α)) (k : String) (v : α) :
    (s.map (fun p => if p.1 = k then (k, v) else p)).find?
        (fun p => decide (p.1 = k)) =
      if s.any (fun p => decide (p.1 = k)) then some (k, v) else none := by
  induction s with
  | nil => simp
  | cons q s ih =>
    rw [List.map_cons, List.any_cons]
    by_cases h : q.1 = k
    · rw [if_pos h, List.find?_cons_of_pos _ (by simp), decide_eq_true h]
      simp
    · rw [if_neg h, List.find?_cons_of_neg _ (by simp [h]),
        decide_eq_false h, Bool.false_or, ih]

theorem jsGet_jsSet_self {α : Type} (s : List (String × α)) (k : String)
    (v : α) : jsGet (jsSet s k v) k = some v := by
  unfold jsGet jsSet
  by_cases h : s.any (fun p => decide (p.1 = k))
  · rw [if_pos h, find?_map_set, if_pos h]
    rfl
  · rw [if_neg h, List.find?_append]
    have hnone : s.find? (fun p => decide (p.1 = k)) = none := by
      rw [List.find?_eq_none]
      intro x hx hpx
      exact h (List.any_eq_true.mpr ⟨x, hx, hpx⟩)
    simp [hnone, List.find?]

theorem mem_jsSet {α : Type} {s : List (String × α)} {k : String} {v : α}
    {p : String × α} (h : p ∈ jsSet s k v) : p = (k, v) ∨ p ∈ s := by
  unfold jsSet at h
  by_cases hc : s.any (fun q => decide (q.1 = k))
  · rw [if_pos hc] at h
    rcases List.mem_map.mp h with ⟨q, hq, rfl⟩
    by_cases hqk : q.1 = k
    · left
      simp [hqk]
    · right
      simpa [hqk] using hq
  · rw [if_neg hc] at h
    rcases List.mem_append.mp h with h | h
    · right
      exact h
    · left
      simpa using h

theorem jsGet_mem {α : Type} {s : List (String × α)} {k : String} {v : α}
    (h : jsGet s k = some v) : (k, v) ∈ s := by
  unfold jsGet at h
  cases hf : s.find? (fun p => decide (p.1 = k)) with
  | none => rw [hf] at h; simp at h
  | some q =>
    rw [hf] at h
    have hq2 : q.2 = v := by simpa using h
    have hmem := List.mem_of_find?_eq_some hf
    have hpred : q.1 = k := by
      have := List.find?_some hf
      simpa using this
    have : q = (k, v) := by
      cases q
      simp_all
    rwa [this] at hmem

/-! ### C6: unauthenticated writes -/

/-- C6. A write request with no authenticated session is rejected with
HTTP 401 by both the relational and the file backend before any mutation:
the table and the file state are returned unchanged, so a read after the
rejected write sees exactly the store a read before it saw. -/
theorem unauthenticated_write_rejected_store_unchanged :
    ∀ (body : SupaBody) (fbody : FileBody) (now : String) (t : List Row)
      (fs : Fs),
      postScores none body now t =
        { status := 401, body := none, table := t } ∧
      postScoresFile none fbody now fs =
        { status := 401, body := none, fs := fs } ∧
      getScoresFile (postScoresFile none fbody now fs).fs =
        getScoresFile fs ∧
      (∀ sess : Option User,
        getScores sess (postScores none body now t).table =
          getScores sess t) := by
  intro body fbody now t fs
  exact ⟨rfl, rfl, rfl, fun _ => rfl⟩

/-! ### C7: validation failures -/

/-- C7. An authenticated write whose body lacks every team identifier or
lacks the scores payload is rejected with HTTP 400 — a status distinct from
the 401 authorization and 500 storage outcomes — and the backing store is
untouched, in both the relational and the file backend. -/
theorem invalid_body_rejected_store_unchanged :
    ∀ (u : User) (body : SupaBody) (fbody : FileBody) (now : String)
      (t : List Row) (fs : Fs),
      ((strTruthy body.teamId = false ∧ strTruthy body.teamName = false) ∨
          body.scores = none →
        postScores (some u) body now t =
          { status := 400, body := none, table := t }) ∧
      (fbody.teamId = none ∨ fbody.teamId = some "" ∨ fbody.scores = none →
        postScoresFile (some u) fbody now fs =
          { status := 400, body := none, fs := fs }) ∧
      (400 : Nat) ≠ 401 ∧ (400 : Nat) ≠ 500 := by
  intro u body fbody now t fs
  refine ⟨?_, ?_, by decide, by decide⟩
  · intro h
    cases hsc : body.scores with
    | none => simp [postScores, hsc]
    | some sc =>
      rcases h with ⟨h1, h2⟩ | h
      · simp [postScores, hsc, h1, h2]
      · rw [hsc] at h
        exact absurd h (by simp)
  · intro h
    rcases h with h | h | h
    · cases hsc : fbody.scores <;> simp [postScoresFile, h, hsc]
    · cases hsc : fbody.scores <;> simp [postScoresFile, h, hsc]
    · cases htid : fbody.teamId <;> simp [postScoresFile, h, htid]

/-- Concrete instantiation of `invalid_body_rejected_store_unchanged`: an
authenticated save with no scores payload is a 400 no-op. -/
theorem invalid_body_rejected_store_unchanged_witness :
    postScores (some { email := some "j@x", name := none })
        { teamId := some "t1", teamName := none, scores := none } "now" [] =
      { status := 400, body := none, table := [] } ∧
    postScoresFile (some { email := some "j@x", name := none })
        { teamId := none, scores := none } "now" Fs.missing =
      { status := 400, body := none, fs := Fs.missing } := by
  have h := invalid_body_rejected_store_unchanged
    { email := some "j@x", name := none }
    { teamId := some "t1", teamName := none, scores := none }
    { teamId := none, scores := none } "now" [] Fs.missing
  exact ⟨h.1 (Or.inr rfl), h.2.1 (Or.inl rfl)⟩

/-! ### C8: missing store file -/

/-- C8. When the file backend's store file is absent, `ensureStore`
initializes the empty store and proceeds: a read returns the empty mapping
with HTTP 200, a well-formed authenticated write succeeds with HTTP 200, and
no request against the absent file ever yields the 500 storage error. -/
theorem missing_store_file_initializes_empty :
    ensureStore Fs.missing = Except.ok ([], Fs.stored []) ∧
    getScoresFile Fs.missing =
      { status := 200, body := some [], fs := Fs.stored [] } ∧
    (∀ (u : User) (sc : ScoreEntry) (now : String),
      (postScoresFile (some u)
        { teamId := some "t1", scores := some sc } now Fs.missing).status =
          200) ∧
    (∀ (sess : Option User) (fbody : FileBody) (now : String),
      (postScoresFile sess fbody now Fs.missing).status ≠ 500) := by
  refine ⟨rfl, rfl, fun u sc now => rfl, ?_⟩
  intro sess fbody now
  cases sess with
  | none => simp [postScoresFile]
  | some u =>
    cases htid : fbody.teamId with
    | none => cases hsc : fbody.scores <;> simp [postScoresFile, htid, hsc]
    | some tid =>
      cases hsc : fbody.scores with
      | none => simp [postScoresFile, htid, hsc]
      | some sc =>
        by_cases he : tid = "" <;>
          simp [postScoresFile, htid, hsc, he, ensureStore]

/-! ### C1: sub-score clamping -/

/-- C1 (counterexample). The write path does not clamp: a POST carrying a
`problemRelevance` of 99 is accepted (HTTP 200) and the row persisted to the
table holds 99, which does not lie in `[0,15]`. -/
theorem subscore_clamping_refuted :
    oversizedSave.status = 200 ∧
    oversizedSave.table.map (fun r => r.problem_relevance) = [some 99] ∧
    ¬ ((99 : Int) ≤ 15) := by
  refine ⟨rfl, ?_, by decide⟩
  decide

theorem mem_tryUpsert {t : List Row} {p r : Row} (h : r ∈ tryUpsert t p) :
    r ∈ t ∨ r = p ∨ ∃ x ∈ t, r = applyPayload x p := by
  unfold tryUpsert at h
  by_cases hc : t.any (fun x => sameKey x p)
  · rw [if_pos hc] at h
    rcases List.mem_map.mp h with ⟨x, hx, rfl⟩
    by_cases hk : sameKey x p
    · right; right
      exact ⟨x, hx, by simp [hk]⟩
    · left
      simpa [hk] using hx
  · rw [if_neg hc] at h
    rcases List.mem_append.mp h with h | h
    · left; exact h
    · right; left; simpa using h

/-- Unfolding of the relational `POST` on its accepting path. -/
theorem postScores_accepting (u : User) (body : SupaBody) (sc : ScoreEntry)
    (now : String) (t : List Row) (hsc : body.scores = some sc)
    (hteam : strTruthy body.teamId = true ∨ strTruthy body.teamName = true) :
    postScores (some u) body now t =
      { status := 200
        body := some (rowsToStore
          ((tryUpsert t (mkPayload u body sc now)).filter
            (fun r => decide (r.judge_email =
              some (lowerStr (userEmailOf u))))))
        table := tryUpsert t (mkPayload u body sc now) } := by
  have hcond : (strTruthy body.teamId || strTruthy body.teamName) = true := by
    rcases hteam with h | h <;> simp [h]
  simp [postScores, hsc, hcond]

/-- C1 (amended). Neither backend clamps sub-scores: every row the relational
upsert leaves in the table is either an untouched pre-existing row or carries
exactly the six submitted sub-score values, and the entry the file backend
persists under the team key carries exactly the six submitted sub-score
values. Clamping into `[0,15]` happens only in the client dashboard before
submission. -/
theorem subscores_persisted_verbatim :
    (∀ (u : User) (body : SupaBody) (sc : ScoreEntry) (now : String)
        (t : List Row) (r : Row),
        body.scores = some sc →
        (strTruthy body.teamId = true ∨ strTruthy body.teamName = true) →
        r ∈ (postScores (some u) body now t).table →
        r ∈ t ∨
          (r.problem_relevance = sc.problemRelevance ∧
           r.technical_feasibility = sc.technicalFeasibility ∧
           r.statement_alignment = sc.statementAlignment ∧
           r.creativity = sc.creativity ∧
           r.presentation = sc.presentation ∧
           r.google_tech_use = sc.googleTechUse)) ∧
    (∀ (u : User) (tid : String) (sc : ScoreEntry) (now : String)
        (store0 : ScoreStore) (tr : TeamRecord),
        tid ≠ "" →
        (postScoresFile (some u) { teamId := some tid, scores := some sc }
            now (Fs.stored store0)).fs =
          Fs.stored (upsertFileStore store0 tid
            (mkFileEntry sc (userEmailOf u) (userNameOf u) now)
            (userEmailOf u)) ∧
        (jsGet (upsertFileStore store0 tid
            (mkFileEntry sc (userEmailOf u) (userNameOf u) now)
            (userEmailOf u)) tid = some tr →
          tr.entry.problemRelevance = sc.problemRelevance ∧
          tr.entry.technicalFeasibility = sc.technicalFeasibility ∧
          tr.entry.statementAlignment = sc.statementAlignment ∧
          tr.entry.creativity = sc.creativity ∧
          tr.entry.presentation = sc.presentation ∧
          tr.entry.googleTechUse = sc.googleTechUse)) := by
  constructor
  · intro u body sc now t r hsc hteam hr
    rw [postScores_accepting u body sc now t hsc hteam] at hr
    rcases mem_tryUpsert hr with h | h | ⟨x, _, rfl⟩
    · exact Or.inl h
    · subst h
      exact Or.inr ⟨rfl, rfl, rfl, rfl, rfl, rfl⟩
    · exact Or.inr ⟨rfl, rfl, rfl, rfl, rfl, rfl⟩
  · intro u tid sc now store0 tr htid
    constructor
    · simp [postScoresFile, htid, ensureStore]
    · intro hget
      have : jsGet (upsertFileStore store0 tid
          (mkFileEntry sc (userEmailOf u) (userNameOf u) now)
          (userEmailOf u)) tid =
          some { entry := mkFileEntry sc (userEmailOf u) (userNameOf u) now
                 judges := some
                   (((priorJudgesOf store0 tid).filter
                      (fun j => decide (j.updatedBy ≠
                        some (userEmailOf u)))) ++
                    [mkFileEntry sc (userEmailOf u) (userNameOf u) now]) } :=
        jsGet_jsSet_self _ _ _
      rw [this] at hget
      cases hget
      exact ⟨rfl, rfl, rfl, rfl, rfl, rfl⟩

/-- Concrete instantiation of `subscores_persisted_verbatim`: a save carrying
a sub-score of 42 persists 42 on both backends. -/
theorem subscores_persisted_verbatim_witness :
    (({ team_id := some "t1", team_name := some "t1", team := none,
        teamId := none, teamid := none, judge_email := some "j@x",
        judge_name := some "J", problem_relevance := some 42,
        technical_feasibility := some 1, statement_alignment := some 1,
        creativity := some 1, presentation := some 1,
        google_tech_use := some 1, notes := some "",
        updated_at := some "n" } : Row) ∈ ([] : List Row) ∨
      (({ team_id := some "t1", team_name := some "t1", team := none,
          teamId := none, teamid := none, judge_email := some "j@x",
          judge_name := some "J", problem_relevance := some 42,
          technical_feasibility := some 1, statement_alignment := some 1,
          creativity := some 1, presentation := some 1,
          google_tech_use := some 1, notes := some "",
          updated_at := some "n" } : Row).problem_relevance = some 42 ∧
        some 1 = some 1 ∧ some 1 = some 1 ∧ some 1 = some 1 ∧
        some 1 = some 1 ∧ some 1 = some 1)) := by
  have h := subscores_persisted_verbatim.1
    { email := some "j@x", name := some "J" }
    { teamId := some "t1", teamName := none,
      scores := some
        { problemRelevance := some 42, technicalFeasibility := some 1,
          statementAlignment := some 1, creativity := some 1,
          presentation := some 1, googleTechUse := some 1,
          notes := none, updatedAt := none, updatedBy := none,
          updatedByName := none } }
    { problemRelevance := some 42, technicalFeasibility := some 1,
      statementAlignment := some 1, creativity := some 1,
      presentation := some 1, googleTechUse := some 1,
      notes := none, updatedAt := none, updatedBy := none,
      updatedByName := none }
    "n" []
    { team_id := some "t1", team_name := some "t1", team := none,
      teamId := none, teamid := none, judge_email := some "j@x",
      judge_name := some "J", problem_relevance := some 42,
      technical_feasibility := some 1, statement_alignment := some 1,
      creativity := some 1, presentation := some 1,
      google_tech_use := some 1, notes := some "", updated_at := some "n" }
    rfl (Or.inl (by decide)) (by decide)
  simpa using h

/-! ### C2: upsert keyed on (team, judge) -/

theorem filter_pos_after_ne (l : List ScoreEntry) (uem : String) :
    (l.filter (fun j => decide (j.updatedBy ≠ some uem))).filter
        (fun j => decide (j.updatedBy = some uem)) = [] := by
  rw [List.filter_eq_nil_iff]
  intro a ha
  have h := List.of_mem_filter ha
  simp only [decide_eq_true_eq] at h
  simp [h]

theorem sameKey_applyPayload (x p : Row) : sameKey (applyPayload x p) p = true := by
  simp [sameKey, applyPayload]

theorem sameKey_refl (p : Row) : sameKey p p = true := by
  simp [sameKey]

theorem tryUpsert_filter_nil {t : List Row} {p : Row}
    (h : t.filter (fun x => sameKey x p) = []) :
    (tryUpsert t p).filter (fun x => sameKey x p) = [p] := by
  have hany : ¬ t.any (fun x => sameKey x p) = true := by
    rw [List.any_eq_true]
    rintro ⟨x, hx, hpx⟩
    exact absurd hpx (List.filter_eq_nil_iff.mp h x hx)
  unfold tryUpsert
  rw [if_neg hany, List.filter_append, h, List.nil_append]
  simp [sameKey_refl]

theorem filter_map_upsert (t : List Row) (p : Row) :
    ((t.map (fun y => if sameKey y p then applyPayload y p else y)).filter
        (fun y => sameKey y p)) =
      (t.filter (fun y => sameKey y p)).map (fun y => applyPayload y p) := by
  induction t with
  | nil => simp
  | cons y t ih =>
    by_cases hy : sameKey y p = true
    · rw [List.map_cons, if_pos hy, List.filter_cons, List.filter_cons,
        if_pos hy, if_pos (sameKey_applyPayload y p), List.map_cons, ih]
    · rw [List.map_cons, if_neg hy, List.filter_cons, List.filter_cons,
        if_neg hy, if_neg hy, ih]

theorem tryUpsert_filter_one {t : List Row} {p x : Row}
    (h : t.filter (fun y => sameKey y p) = [x]) :
    (tryUpsert t p).filter (fun y => sameKey y p) = [applyPayload x p] := by
  have hx : x ∈ t.filter (fun y => sameKey y p) := by
    rw [h]; exact List.mem_singleton.mpr rfl
  have hany : t.any (fun y => sameKey y p) = true :=
    List.any_eq_true.mpr ⟨x, (List.mem_filter.mp hx).1, (List.mem_filter.mp hx).2⟩
  unfold tryUpsert
  rw [if_pos hany, filter_map_upsert, h, List.map_singleton]

/-- C2. Upserting the same `(team, judge)` pair twice leaves exactly one
entry for that judge under that team, holding the second write's values.
File backend: after two saves by the same session for the same team, the
team record's judges array holds exactly one entry attributed to that judge,
namely the entry built from the second save, and it is also the record's
top-level entry. Relational backend: provided the table respects the
`(team_id, judge_email)` uniqueness constraint, after two saves the rows
matching that key are exactly one row carrying the second save's column
values. -/
theorem upsert_same_pair_single_entry :
    (∀ (u : User) (tid : String) (sc1 sc2 : ScoreEntry) (now1 now2 : String)
        (store0 store2 : ScoreStore) (tr : TeamRecord),
        tid ≠ "" →
        (postScoresFile (some u) { teamId := some tid, scores := some sc2 }
            now2
            (postScoresFile (some u)
              { teamId := some tid, scores := some sc1 } now1
              (Fs.stored store0)).fs).fs = Fs.stored store2 →
        jsGet store2 tid = some tr →
        (tr.judges.getD []).filter
            (fun j => decide (j.updatedBy = some (userEmailOf u))) =
          [mkFileEntry sc2 (userEmailOf u) (userNameOf u) now2] ∧
        tr.entry = mkFileEntry sc2 (userEmailOf u) (userNameOf u) now2) ∧
    (∀ (u : User) (tidOpt tnOpt : Option String) (sc1 sc2 : ScoreEntry)
        (now1 now2 : String) (t : List Row),
        (strTruthy tidOpt = true ∨ strTruthy tnOpt = true) →
        (t.filter (fun x => sameKey x
            (mkPayload u ⟨tidOpt, tnOpt, some sc1⟩ sc1 now1))).length ≤ 1 →
        ((postScores (some u) ⟨tidOpt, tnOpt, some sc2⟩ now2
              (postScores (some u) ⟨tidOpt, tnOpt, some sc1⟩ now1
                t).table).table.filter
            (fun x => sameKey x
              (mkPayload u ⟨tidOpt, tnOpt, some sc2⟩ sc2 now2))).map
            (fun x => (x.problem_relevance, x.technical_feasibility,
              x.statement_alignment, x.creativity, x.presentation,
              x.google_tech_use, x.judge_email, x.updated_at, x.notes)) =
          [(sc2.problemRelevance, sc2.technicalFeasibility,
            sc2.statementAlignment, sc2.creativity, sc2.presentation,
            sc2.googleTechUse, some (lowerStr (userEmailOf u)),
            some (sc2.updatedAt.getD now2), some (orStr sc2.notes ""))]) := by
  constructor
  · intro u tid sc1 sc2 now1 now2 store0 store2 tr htid hfs hget
    have h1 : (postScoresFile (some u)
        { teamId := some tid, scores := some sc1 } now1
        (Fs.stored store0)).fs =
          Fs.stored (upsertFileStore store0 tid
            (mkFileEntry sc1 (userEmailOf u) (userNameOf u) now1)
            (userEmailOf u)) := by
      simp [postScoresFile, htid, ensureStore]
    rw [h1] at hfs
    have h2 : (postScoresFile (some u)
        { teamId := some tid, scores := some sc2 } now2
        (Fs.stored (upsertFileStore store0 tid
          (mkFileEntry sc1 (userEmailOf u) (userNameOf u) now1)
          (userEmailOf u)))).fs =
          Fs.stored (upsertFileStore
            (upsertFileStore store0 tid
              (mkFileEntry sc1 (userEmailOf u) (userNameOf u) now1)
              (userEmailOf u)) tid
            (mkFileEntry sc2 (userEmailOf u) (userNameOf u) now2)
            (userEmailOf u)) := by
      simp [postScoresFile, htid, ensureStore]
    rw [h2] at hfs
    have hstore2 : store2 = upsertFileStore
        (upsertFileStore store0 tid
          (mkFileEntry sc1 (userEmailOf u) (userNameOf u) now1)
          (userEmailOf u)) tid
        (mkFileEntry sc2 (userEmailOf u) (userNameOf u) now2)
        (userEmailOf u) := by
      cases hfs
      rfl
    subst hstore2
    have hget1 : jsGet (upsertFileStore store0 tid
        (mkFileEntry sc1 (userEmailOf u) (userNameOf u) now1)
        (userEmailOf u)) tid =
        some { entry := mkFileEntry sc1 (userEmailOf u) (userNameOf u) now1
               judges := some
                 ((priorJudgesOf store0 tid).filter
                    (fun j => decide (j.updatedBy ≠ some (userEmailOf u))) ++
                  [mkFileEntry sc1 (userEmailOf u) (userNameOf u) now1]) } :=
      jsGet_jsSet_self _ _ _
    have hget2 : jsGet (upsertFileStore
        (upsertFileStore store0 tid
          (mkFileEntry sc1 (userEmailOf u) (userNameOf u) now1)
          (userEmailOf u)) tid
        (mkFileEntry sc2 (userEmailOf u) (userNameOf u) now2)
        (userEmailOf u)) tid =
        some { entry := mkFileEntry sc2 (userEmailOf u) (userNameOf u) now2
               judges := some
                 ((priorJudgesOf
                    (upsertFileStore store0 tid
                      (mkFileEntry sc1 (userEmailOf u) (userNameOf u) now1)
                      (userEmailOf u)) tid).filter
                    (fun j => decide (j.updatedBy ≠ some (userEmailOf u))) ++
                  [mkFileEntry sc2 (userEmailOf u) (userNameOf u) now2]) } :=
      jsGet_jsSet_self _ _ _
    have hprior : priorJudgesOf
        (upsertFileStore store0 tid
          (mkFileEntry sc1 (userEmailOf u) (userNameOf u) now1)
          (userEmailOf u)) tid =
        (priorJudgesOf store0 tid).filter
          (fun j => decide (j.updatedBy ≠ some (userEmailOf u))) ++
        [mkFileEntry sc1 (userEmailOf u) (userNameOf u) now1] := by
      unfold priorJudgesOf
      rw [hget1]
      rfl
    rw [hprior] at hget2
    rw [hget2] at hget
    cases hget
    refine ⟨?_, rfl⟩
    show List.filter (fun j => decide (j.updatedBy = some (userEmailOf u)))
        (List.filter (fun j => decide (j.updatedBy ≠ some (userEmailOf u)))
          (List.filter (fun j => decide (j.updatedBy ≠ some (userEmailOf u)))
              (priorJudgesOf store0 tid) ++
            [mkFileEntry sc1 (userEmailOf u) (userNameOf u) now1]) ++
          [mkFileEntry sc2 (userEmailOf u) (userNameOf u) now2]) =
      [mkFileEntry sc2 (userEmailOf u) (userNameOf u) now2]
    rw [List.filter_append, filter_pos_after_ne, List.nil_append]
    simp [mkFileEntry]
  · intro u tidOpt tnOpt sc1 sc2 now1 now2 t hteam hlen
    have hacc1 := postScores_accepting u ⟨tidOpt, tnOpt, some sc1⟩ sc1 now1 t
      rfl hteam
    rw [hacc1]
    have hacc2 := postScores_accepting u ⟨tidOpt, tnOpt, some sc2⟩ sc2 now2
      (tryUpsert t (mkPayload u ⟨tidOpt, tnOpt, some sc1⟩ sc1 now1)) rfl hteam
    rw [hacc2]
    have hpred : (fun x => sameKey x
        (mkPayload u ⟨tidOpt, tnOpt, some sc2⟩ sc2 now2)) =
        (fun x => sameKey x
          (mkPayload u ⟨tidOpt, tnOpt, some sc1⟩ sc1 now1)) := rfl
    cases hl : t.filter (fun x => sameKey x
        (mkPayload u ⟨tidOpt, tnOpt, some sc1⟩ sc1 now1)) with
    | nil =>
      have hf1 := tryUpsert_filter_nil hl
      have hf2 : (tryUpsert t (mkPayload u ⟨tidOpt, tnOpt, some sc1⟩ sc1
          now1)).filter (fun x => sameKey x
            (mkPayload u ⟨tidOpt, tnOpt, some sc2⟩ sc2 now2)) =
          [mkPayload u ⟨tidOpt, tnOpt, some sc1⟩ sc1 now1] := by
        rw [hpred]
        exact hf1
      have := tryUpsert_filter_one hf2
      rw [this]
      simp [applyPayload, mkPayload]
    | cons x xs =>
      cases xs with
      | nil =>
        have hf1 := tryUpsert_filter_one hl
        have hf2 : (tryUpsert t (mkPayload u ⟨tidOpt, tnOpt, some sc1⟩ sc1
            now1)).filter (fun y => sameKey y
              (mkPayload u ⟨tidOpt, tnOpt, some sc2⟩ sc2 now2)) =
            [applyPayload x
              (mkPayload u ⟨tidOpt, tnOpt, some sc1⟩ sc1 now1)] := by
          rw [hpred]
          exact hf1
        have := tryUpsert_filter_one hf2
        rw [this]
        simp [applyPayload, mkPayload]
      | cons y ys =>
        rw [hl] at hlen
        simp at hlen

/-- Concrete instantiation of `upsert_same_pair_single_entry`: saving twice
as the same judge for team `"t1"` leaves exactly one entry for that judge,
holding the second save's values, on both backends. -/
theorem upsert_same_pair_single_entry_witness :
    ((({ entry := mkFileEntry wEntry2 (userEmailOf wUser) (userNameOf wUser)
            "n2",
         judges := some [mkFileEntry wEntry2 (userEmailOf wUser)
            (userNameOf wUser) "n2"] } : TeamRecord).judges.getD []).filter
        (fun j => decide (j.updatedBy = some (userEmailOf wUser))) =
      [mkFileEntry wEntry2 (userEmailOf wUser) (userNameOf wUser) "n2"] ∧
      ({ entry := mkFileEntry wEntry2 (userEmailOf wUser) (userNameOf wUser)
            "n2",
         judges := some [mkFileEntry wEntry2 (userEmailOf wUser)
            (userNameOf wUser) "n2"] } : TeamRecord).entry =
        mkFileEntry wEntry2 (userEmailOf wUser) (userNameOf wUser) "n2") ∧
    ((postScores (some wUser) ⟨some "t1", none, some wEntry2⟩ "n2"
          (postScores (some wUser) ⟨some "t1", none, some wEntry1⟩ "n1"
            []).table).table.filter
        (fun x => sameKey x
          (mkPayload wUser ⟨some "t1", none, some wEntry2⟩ wEntry2
            "n2"))).map
        (fun x => (x.problem_relevance, x.technical_feasibility,
          x.statement_alignment, x.creativity, x.presentation,
          x.google_tech_use, x.judge_email, x.updated_at, x.notes)) =
      [(wEntry2.problemRelevance, wEntry2.technicalFeasibility,
        wEntry2.statementAlignment, wEntry2.creativity,
        wEntry2.presentation, wEntry2.googleTechUse,
        some (lowerStr (userEmailOf wUser)),
        some (wEntry2.updatedAt.getD "n2"),
        some (orStr wEntry2.notes ""))] := by
  constructor
  · exact upsert_same_pair_single_entry.1 wUser "t1" wEntry1 wEntry2 "n1" "n2"
      []
      [("t1", { entry := mkFileEntry wEntry2 (userEmailOf wUser) (userNameOf wUser) "n2", judges := some [mkFileEntry wEntry2 (userEmailOf wUser) (userNameOf wUser) "n2"] })]
      { entry := mkFileEntry wEntry2 (userEmailOf wUser) (userNameOf wUser) "n2", judges := some [mkFileEntry wEntry2 (userEmailOf wUser) (userNameOf wUser) "n2"] }
      (by decide) (by decide) (by decide)
  · exact upsert_same_pair_single_entry.2 wUser (some "t1") none wEntry1
      wEntry2 "n1" "n2" [] (Or.inl (by decide)) (by decide)

/-! ### C9: lowercased judge identity on the relational route -/

/-- C9. The relational route normalizes the judge key to lowercase on both
write and read. Write: two saves for the same team by sessions whose emails
differ only in letter case hit the same `(team_id, judge_email)` key, so the
second replaces the first and exactly one row remains, carrying the second
save's values under the lowercased email. Read: the judge-scoped `GET`
returns the same response for two sessions whose emails differ only in
letter case, because both select rows by the lowercased email. -/
theorem judge_email_lowercased_on_write_and_read :
    (∀ (e1 e2 : String) (n1 n2 tidOpt tnOpt : Option String)
        (sc1 sc2 : ScoreEntry) (now1 now2 : String) (t : List Row),
        e1 ≠ "" → e2 ≠ "" → lowerStr e1 = lowerStr e2 →
        (strTruthy tidOpt = true ∨ strTruthy tnOpt = true) →
        (t.filter (fun x => sameKey x
            (mkPayload { email := some e1, name := n1 }
              ⟨tidOpt, tnOpt, some sc1⟩ sc1 now1))).length ≤ 1 →
        ((postScores (some { email := some e2, name := n2 })
              ⟨tidOpt, tnOpt, some sc2⟩ now2
              (postScores (some { email := some e1, name := n1 })
                ⟨tidOpt, tnOpt, some sc1⟩ now1 t).table).table.filter
            (fun x => sameKey x
              (mkPayload { email := some e2, name := n2 }
                ⟨tidOpt, tnOpt, some sc2⟩ sc2 now2))).map
            (fun x => (x.judge_email, x.problem_relevance, x.updated_at)) =
          [(some (lowerStr e2), sc2.problemRelevance,
            some (sc2.updatedAt.getD now2))]) ∧
    (∀ (e1 e2 : String) (n1 n2 : Option String) (t : List Row),
        e1 ≠ "" → e2 ≠ "" → lowerStr e1 = lowerStr e2 →
        (getScores (some { email := some e1, name := n1 }) t).body =
          (getScores (some { email := some e2, name := n2 }) t).body) := by
  constructor
  · intro e1 e2 n1 n2 tidOpt tnOpt sc1 sc2 now1 now2 t he1 he2 hlow hteam hlen
    have hacc1 := postScores_accepting { email := some e1, name := n1 }
      ⟨tidOpt, tnOpt, some sc1⟩ sc1 now1 t rfl hteam
    rw [hacc1]
    have hacc2 := postScores_accepting { email := some e2, name := n2 }
      ⟨tidOpt, tnOpt, some sc2⟩ sc2 now2
      (tryUpsert t (mkPayload { email := some e1, name := n1 }
        ⟨tidOpt, tnOpt, some sc1⟩ sc1 now1)) rfl hteam
    rw [hacc2]
    have hue1 : userEmailOf { email := some e1, name := n1 } = e1 := by
      simp [userEmailOf, orStr, he1]
    have hue2 : userEmailOf { email := some e2, name := n2 } = e2 := by
      simp [userEmailOf, orStr, he2]
    have hje : (mkPayload { email := some e2, name := n2 }
        ⟨tidOpt, tnOpt, some sc2⟩ sc2 now2).judge_email =
        (mkPayload { email := some e1, name := n1 }
          ⟨tidOpt, tnOpt, some sc1⟩ sc1 now1).judge_email := by
      show some (lowerStr (userEmailOf { email := some e2, name := n2 })) =
        some (lowerStr (userEmailOf { email := some e1, name := n1 }))
      rw [hue1, hue2, hlow]
    have hte : (mkPayload { email := some e2, name := n2 }
        ⟨tidOpt, tnOpt, some sc2⟩ sc2 now2).team_id =
        (mkPayload { email := some e1, name := n1 }
          ⟨tidOpt, tnOpt, some sc1⟩ sc1 now1).team_id := rfl
    have hfun : (fun x => sameKey x
        (mkPayload { email := some e2, name := n2 }
          ⟨tidOpt, tnOpt, some sc2⟩ sc2 now2)) =
        (fun x => sameKey x
          (mkPayload { email := some e1, name := n1 }
            ⟨tidOpt, tnOpt, some sc1⟩ sc1 now1)) := by
      funext x
      unfold sameKey
      rw [hte, hje]
    cases hl : t.filter (fun x => sameKey x
        (mkPayload { email := some e1, name := n1 }
          ⟨tidOpt, tnOpt, some sc1⟩ sc1 now1)) with
    | nil =>
      have hf1 := tryUpsert_filter_nil hl
      have hf2 : (tryUpsert t (mkPayload { email := some e1, name := n1 }
          ⟨tidOpt, tnOpt, some sc1⟩ sc1 now1)).filter
          (fun y => sameKey y (mkPayload { email := some e2, name := n2 }
            ⟨tidOpt, tnOpt, some sc2⟩ sc2 now2)) =
          [mkPayload { email := some e1, name := n1 }
            ⟨tidOpt, tnOpt, some sc1⟩ sc1 now1] := by
        rw [hfun]
        exact hf1
      rw [tryUpsert_filter_one hf2]
      simp [applyPayload, mkPayload, hue2]
    | cons x xs =>
      cases xs with
      | nil =>
        have hf1 := tryUpsert_filter_one hl
        have hf2 : (tryUpsert t (mkPayload { email := some e1, name := n1 }
            ⟨tidOpt, tnOpt, some sc1⟩ sc1 now1)).filter
            (fun y => sameKey y (mkPayload { email := some e2, name := n2 }
              ⟨tidOpt, tnOpt, some sc2⟩ sc2 now2)) =
            [applyPayload x (mkPayload { email := some e1, name := n1 }
              ⟨tidOpt, tnOpt, some sc1⟩ sc1 now1)] := by
          rw [hfun]
          exact hf1
        rw [tryUpsert_filter_one hf2]
        simp [applyPayload, mkPayload, hue2]
      | cons y ys =>
        rw [hl] at hlen
        simp at hlen
  · intro e1 e2 n1 n2 t he1 he2 hlow
    have h1 : jsOr (some e1) n1 = some e1 := by
      simp [jsOr, strTruthy, he1]
    have h2 : jsOr (some e2) n2 = some e2 := by
      simp [jsOr, strTruthy, he2]
    have g1 : (getScores (some { email := some e1, name := n1 }) t).body =
        some (rowsToStore (t.filter (fun r => decide (r.judge_email =
          some (lowerStr e1))))) := by
      simp [getScores, h1, he1]
    have g2 : (getScores (some { email := some e2, name := n2 }) t).body =
        some (rowsToStore (t.filter (fun r => decide (r.judge_email =
          some (lowerStr e2))))) := by
      simp [getScores, h2, he2]
    rw [g1, g2, hlow]

/-- Concrete instantiation of `judge_email_lowercased_on_write_and_read`:
sessions with emails `"Judge@X"` and `"judge@x"` act as one judge on write
and see the same judge-scoped read. -/
theorem judge_email_lowercased_witness :
    (((postScores (some { email := some "judge@x", name := none })
          ⟨some "t1", none, some wEntry2⟩ "n2"
          (postScores (some { email := some "Judge@X", name := none })
            ⟨some "t1", none, some wEntry1⟩ "n1" []).table).table.filter
        (fun x => sameKey x
          (mkPayload { email := some "judge@x", name := none }
            ⟨some "t1", none, some wEntry2⟩ wEntry2 "n2"))).map
        (fun x => (x.judge_email, x.problem_relevance, x.updated_at)) =
      [(some (lowerStr "judge@x"), wEntry2.problemRelevance,
        some (wEntry2.updatedAt.getD "n2"))]) ∧
    (getScores (some { email := some "Judge@X", name := none })
        (postScores (some wUser) ⟨some "t1", none, some wEntry1⟩ "n1"
          []).table).body =
      (getScores (some { email := some "judge@x", name := none })
        (postScores (some wUser) ⟨some "t1", none, some wEntry1⟩ "n1"
          []).table).body := by
  constructor
  · exact judge_email_lowercased_on_write_and_read.1 "Judge@X" "judge@x"
      none none (some "t1") none wEntry1 wEntry2 "n1" "n2" []
      (by decide) (by decide) (by decide) (Or.inl (by decide)) (by decide)
  · exact judge_email_lowercased_on_write_and_read.2 "Judge@X" "judge@x"
      none none
      (postScores (some wUser) ⟨some "t1", none, some wEntry1⟩ "n1" []).table
      (by decide) (by decide) (by decide)

/-! ### C3: judge-scoped read -/

theorem mem_storeEntries_iff {e : ScoreEntry} {s : ScoreStore} :
    e ∈ storeEntries s ↔ ∃ p ∈ s, e ∈ entriesOfRec p.2 := by
  simp [storeEntries, List.mem_flatMap]

theorem storeEntries_step {acc : ScoreStore} {row : Row} {e : ScoreEntry}
    (h : e ∈ storeEntries (rowsToStoreStep acc row)) :
    e ∈ storeEntries acc ∨ e = toEntry row := by
  unfold rowsToStoreStep at h
  rcases mem_storeEntries_iff.mp h with ⟨p, hp, he⟩
  rcases mem_jsSet hp with rfl | hpacc
  · simp only [entriesOfRec, List.mem_cons, Option.getD_some] at he
    rcases he with he | he
    · exact Or.inr he
    · cases hj : jsGet acc (rowKey row) with
      | none =>
        simp only [hj] at he
        simp at he
        exact Or.inr he
      | some tr =>
        simp only [hj] at he
        cases hjud : tr.judges with
        | none =>
          simp only [hjud] at he
          simp at he
          exact Or.inr he
        | some js =>
          simp only [hjud] at he
          rcases List.mem_append.mp he with he | he
          · left
            refine mem_storeEntries_iff.mpr ⟨(rowKey row, tr), jsGet_mem hj, ?_⟩
            simp [entriesOfRec, hjud, he]
          · exact Or.inr (by simpa using he)
  · left
    exact mem_storeEntries_iff.mpr ⟨p, hpacc, he⟩

theorem storeEntries_foldl (rows : List Row) :
    ∀ (acc : ScoreStore) (e : ScoreEntry),
      e ∈ storeEntries (rows.foldl rowsToStoreStep acc) →
      e ∈ storeEntries acc ∨ ∃ r ∈ rows, e = toEntry r := by
  induction rows with
  | nil =>
    intro acc e h
    exact Or.inl h
  | cons r rows ih =>
    intro acc e h
    rw [List.foldl_cons] at h
    rcases ih _ e h with h' | ⟨r', hr', he⟩
    · rcases storeEntries_step h' with h'' | h''
      · exact Or.inl h''
      · exact Or.inr ⟨r, by simp, h''⟩
    · exact Or.inr ⟨r', by simp [hr'], he⟩

/-- C3. The relational `GET` is judge-scoped. First, every score entry
anywhere in the response of an authenticated judge comes from a table row
whose `judge_email` equals that judge's lowercased key — no other judge's
record appears. Second, the response depends only on the rows carrying the
judge's key: two tables agreeing on those rows produce identical responses,
so changing another judge's stored entries never changes what this judge's
read returns. -/
theorem judge_scoped_read_isolation :
    (∀ (u : User) (raw : String) (t : List Row) (e : ScoreEntry),
        jsOr u.email u.name = some raw → raw ≠ "" →
        e ∈ storeEntries ((getScores (some u) t).body.getD []) →
        ∃ row ∈ t, row.judge_email = some (lowerStr raw) ∧
          e = toEntry row) ∧
    (∀ (u : User) (t1 t2 : List Row),
        (∀ raw, jsOr u.email u.name = some raw → raw ≠ "" →
          t1.filter (fun r => decide (r.judge_email = some (lowerStr raw))) =
            t2.filter
              (fun r => decide (r.judge_email = some (lowerStr raw)))) →
        (getScores (some u) t1).body = (getScores (some u) t2).body) := by
  constructor
  · intro u raw t e hraw hne he
    have hbody : (getScores (some u) t).body =
        some (rowsToStore (t.filter (fun r => decide (r.judge_email =
          some (lowerStr raw))))) := by
      simp [getScores, hraw, hne]
    rw [hbody] at he
    simp only [Option.getD_some] at he
    rcases storeEntries_foldl _ _ _ he with h | ⟨r, hr, he'⟩
    · simp [storeEntries] at h
    · rcases List.mem_filter.mp hr with ⟨hrt, hpred⟩
      exact ⟨r, hrt, by simpa using hpred, he'⟩
  · intro u t1 t2 hagree
    cases hj : jsOr u.email u.name with
    | none => simp [getScores, hj]
    | some raw =>
      by_cases hne : raw = ""
      · subst hne
        simp [getScores, hj]
      · have h1 : (getScores (some u) t1).body =
            some (rowsToStore (t1.filter (fun r => decide (r.judge_email =
              some (lowerStr raw))))) := by
          simp [getScores, hj, hne]
        have h2 : (getScores (some u) t2).body =
            some (rowsToStore (t2.filter (fun r => decide (r.judge_email =
              some (lowerStr raw))))) := by
          simp [getScores, hj, hne]
        rw [h1, h2, hagree raw hj hne]

/-- Concrete instantiation of `judge_scoped_read_isolation`: the entry judge
`"j@x"` reads back comes from that judge's own row, and adding another
judge's row to the table leaves the response unchanged. -/
theorem judge_scoped_read_isolation_witness :
    (∃ row ∈ [wRow], row.judge_email = some (lowerStr "j@x") ∧
      toEntry wRow = toEntry row) ∧
    (getScores (some wUser) [wRow, wOtherRow]).body =
      (getScores (some wUser) [wRow]).body := by
  constructor
  · exact judge_scoped_read_isolation.1 wUser "j@x" [wRow] (toEntry wRow)
      (by decide) (by decide) (by decide)
  · exact judge_scoped_read_isolation.2 wUser [wRow, wOtherRow] [wRow]
      (fun raw hraw hne => by
        simp [jsOr, strTruthy, wUser] at hraw
        subst hraw
        decide)

/-! ### Ranking lemmas -/

theorem bumpTeam_teamId (k : String) (d : Int) (g : RankingRow) :
    (bumpTeam k d g).teamId = g.teamId := by
  unfold bumpTeam
  split <;> rfl

theorem teamTotal_cons (r : Row) (rows : List Row) (k : String) :
    teamTotal (r :: rows) k =
      (if getTeamKey r = k then rowScoreD r else 0) + teamTotal rows k := by
  by_cases h : getTeamKey r = k <;>
    simp [teamTotal, List.filter_cons, h]

theorem teamCount_cons (r : Row) (rows : List Row) (k : String) :
    teamCount (r :: rows) k =
      (if getTeamKey r = k then 1 else 0) + teamCount rows k := by
  by_cases h : getTeamKey r = k <;>
    simp [teamCount, List.filter_cons, h, Nat.add_comm]

theorem findTeam_teamId {l : List RankingRow} {k : String} {g : RankingRow}
    (h : findTeam l k = some g) : g.teamId = k := by
  have := List.find?_some h
  simpa using this

theorem findTeam_map_bump (l : List RankingRow) (key : String) (d : Int)
    (k : String) :
    findTeam (l.map (bumpTeam key d)) k =
      (findTeam l k).map (bumpTeam key d) := by
  induction l with
  | nil => rfl
  | cons g l ih =>
    unfold findTeam at *
    by_cases h : g.teamId = k
    · rw [List.map_cons,
        List.find?_cons_of_pos _ (by simp [bumpTeam_teamId, h]),
        List.find?_cons_of_pos _ (by simp [h])]
      rfl
    · rw [List.map_cons,
        List.find?_cons_of_neg _ (by simp [bumpTeam_teamId, h]),
        List.find?_cons_of_neg _ (by simp [h]), ih]

theorem findTeam_rankStep (acc : List RankingRow) (r : Row) (k : String) :
    findTeam (rankStep acc r) k =
      if getTeamKey r = k then
        match findTeam acc k with
        | some g => some (bumpTeam (getTeamKey r) (rowScoreD r) g)
        | none => some { teamId := getTeamKey r,
                         teamName := getTeamLabel r (getTeamKey r),
                         total := rowScoreD r, judgesCount := 1 }
      else findTeam acc k := by
  unfold rankStep
  by_cases hc : acc.any (fun g => decide (g.teamId = getTeamKey r))
  · rw [if_pos hc, findTeam_map_bump]
    by_cases hk : getTeamKey r = k
    · rw [if_pos hk]
      cases h : findTeam acc k with
      | none =>
        exfalso
        rcases List.any_eq_true.mp hc with ⟨g, hg, hgk⟩
        have hne : findTeam acc (getTeamKey r) ≠ none := by
          unfold findTeam
          intro hn
          exact absurd hgk (List.find?_eq_none.mp hn g hg)
        rw [hk] at hne
        exact hne h
      | some g => rfl
    · rw [if_neg hk]
      cases h : findTeam acc k with
      | none => rfl
      | some g =>
        have hg : g.teamId = k := findTeam_teamId h
        have hbg : bumpTeam (getTeamKey r) (rowScoreD r) g = g := by
          unfold bumpTeam
          rw [if_neg (by rw [hg]; exact fun hh => hk hh.symm)]
        simp [hbg]
  · rw [if_neg hc]
    unfold findTeam
    rw [List.find?_append]
    have hnone : acc.find? (fun g => decide (g.teamId = getTeamKey r)) =
        none := by
      rw [List.find?_eq_none]
      intro g hg hgk
      exact hc (List.any_eq_true.mpr ⟨g, hg, hgk⟩)
    by_cases hk : getTeamKey r = k
    · rw [if_pos hk]
      rw [hk] at hnone
      rw [hnone]
      have hone : List.find? (fun g => decide (g.teamId = k))
          ([{ teamId := getTeamKey r,
              teamName := getTeamLabel r (getTeamKey r),
              total := rowScoreD r, judgesCount := 1 }] :
            List RankingRow) =
          some { teamId := getTeamKey r,
                 teamName := getTeamLabel r (getTeamKey r),
                 total := rowScoreD r, judgesCount := 1 } :=
        List.find?_cons_of_pos _ (by simp [hk])
      rw [hone]
      rfl
    · rw [if_neg hk]
      have hzero : List.find? (fun g => decide (g.teamId = k))
          ([{ teamId := getTeamKey r,
              teamName := getTeamLabel r (getTeamKey r),
              total := rowScoreD r, judgesCount := 1 }] :
            List RankingRow) = none := by
        rw [List.find?_eq_none]
        intro g hg
        simp at hg
        simp [hg, hk]
      rw [hzero, Option.or_none]

theorem findTeam_foldl (rows : List Row) :
    ∀ (acc : List RankingRow) (k : String),
      (findTeam (rows.foldl rankStep acc) k).map
          (fun g => (g.total, g.judgesCount)) =
        match findTeam acc k with
        | some g => some (g.total + teamTotal rows k,
            g.judgesCount + teamCount rows k)
        | none =>
          if teamCount rows k = 0 then none
          else some (teamTotal rows k, teamCount rows k) := by
  induction rows with
  | nil =>
    intro acc k
    cases h : findTeam acc k <;> simp [h, teamTotal, teamCount]
  | cons r rows ih =>
    intro acc k
    rw [List.foldl_cons, ih (rankStep acc r) k, findTeam_rankStep,
      teamTotal_cons, teamCount_cons]
    by_cases hk : getTeamKey r = k
    · rw [if_pos hk, if_pos hk, if_pos hk]
      cases h : findTeam acc k with
      | none =>
        rw [if_neg (show ¬ (1 + teamCount rows k = 0) by omega)]
      | some g =>
        have hg : g.teamId = k := findTeam_teamId h
        have hb : bumpTeam (getTeamKey r) (rowScoreD r) g =
            { g with total := g.total + rowScoreD r,
                     judgesCount := g.judgesCount + 1 } := by
          unfold bumpTeam
          rw [if_pos (by rw [hg, hk])]
        simp only [hb, Option.some.injEq, Prod.mk.injEq]
        exact ⟨by ring, by omega⟩
    · rw [if_neg hk, if_neg hk, if_neg hk]
      cases h : findTeam acc k <;> simp

theorem nodup_keys_rankStep (acc : List RankingRow) (r : Row)
    (h : (acc.map (fun g => g.teamId)).Nodup) :
    ((rankStep acc r).map (fun g => g.teamId)).Nodup := by
  unfold rankStep
  by_cases hc : acc.any (fun g => decide (g.teamId = getTeamKey r))
  · rw [if_pos hc, List.map_map]
    have hcongr : ∀ g ∈ acc,
        ((fun g => g.teamId) ∘ bumpTeam (getTeamKey r) (rowScoreD r)) g =
          g.teamId := fun g _ => bumpTeam_teamId _ _ g
    rw [List.map_congr_left hcongr]
    exact h
  · rw [if_neg hc, List.map_append]
    rw [List.nodup_append]
    refine ⟨h, List.nodup_singleton _, ?_⟩
    intro a ha hb
    simp at hb
    rcases List.mem_map.mp ha with ⟨g, hg, hgk⟩
    apply hc
    exact List.any_eq_true.mpr ⟨g, hg, by simp [hgk, hb]⟩

theorem nodup_keys_foldl (rows : List Row) :
    ∀ acc : List RankingRow, (acc.map (fun g => g.teamId)).Nodup →
      ((rows.foldl rankStep acc).map (fun g => g.teamId)).Nodup := by
  induction rows with
  | nil => intro acc h; exact h
  | cons r rows ih =>
    intro acc h
    rw [List.foldl_cons]
    exact ih _ (nodup_keys_rankStep acc r h)

theorem findTeam_of_mem {l : List RankingRow} {g : RankingRow}
    (hnd : (l.map (fun x => x.teamId)).Nodup) (hg : g ∈ l) :
    findTeam l g.teamId = some g := by
  induction l with
  | nil => cases hg
  | cons x l ih =>
    rcases List.mem_cons.mp hg with rfl | hg'
    · exact List.find?_cons_of_pos _ (by simp)
    · have hx : x.teamId ∉ l.map (fun y => y.teamId) := by
        rw [List.map_cons] at hnd
        exact (List.nodup_cons.mp hnd).1
      have hne : ¬ x.teamId = g.teamId := by
        intro hh
        exact hx (hh ▸ List.mem_map.mpr ⟨g, hg', rfl⟩)
      unfold findTeam
      rw [List.find?_cons_of_neg _ (by simp [hne])]
      exact ih (by rw [List.map_cons] at hnd; exact (List.nodup_cons.mp hnd).2)
        hg'

theorem findTeam_nil (k : String) : findTeam [] k = none := rfl

theorem rank_entry_spec {rows : List Row} {g : RankingRow}
    (hg : g ∈ rank rows) :
    g.total = teamTotal rows g.teamId ∧
    g.judgesCount = teamCount rows g.teamId ∧
    teamCount rows g.teamId ≠ 0 := by
  have hmem : g ∈ rows.foldl rankStep [] :=
    (List.mergeSort_perm (rows.foldl rankStep [])
      (fun a b => decide (b.total ≤ a.total))).mem_iff.mp hg
  have hnd := nodup_keys_foldl rows [] (by simp)
  have hfind := findTeam_of_mem hnd hmem
  have hspec := findTeam_foldl rows [] g.teamId
  rw [hfind] at hspec
  simp only [findTeam_nil, Option.map_some] at hspec
  by_cases h0 : teamCount rows g.teamId = 0
  · rw [if_pos h0] at hspec
    simp at hspec
  · rw [if_neg h0] at hspec
    have hpair := Option.some.inj hspec
    exact ⟨congrArg Prod.fst hpair, congrArg Prod.snd hpair, h0⟩

theorem fold_key_mem (rows : List Row) (k : String) :
    (∃ g ∈ rows.foldl rankStep [], g.teamId = k) ↔
      teamCount rows k ≠ 0 := by
  constructor
  · rintro ⟨g, hg, rfl⟩
    have hnd := nodup_keys_foldl rows [] (by simp)
    have hfind := findTeam_of_mem hnd hg
    have hspec := findTeam_foldl rows [] g.teamId
    rw [hfind] at hspec
    simp only [findTeam_nil, Option.map_some] at hspec
    intro h0
    rw [if_pos h0] at hspec
    simp at hspec
  · intro h0
    have hspec := findTeam_foldl rows [] k
    simp only [findTeam_nil] at hspec
    rw [if_neg h0] at hspec
    cases hfind : findTeam (rows.foldl rankStep []) k with
    | none => rw [hfind] at hspec; simp at hspec
    | some g =>
      exact ⟨g, List.mem_of_find?_eq_some hfind, findTeam_teamId hfind⟩

theorem teamCount_ne_zero_iff (rows : List Row) (k : String) :
    teamCount rows k ≠ 0 ↔ ∃ r ∈ rows, getTeamKey r = k := by
  constructor
  · intro h
    by_contra hne
    push_neg at hne
    apply h
    unfold teamCount
    rw [List.length_eq_zero, List.filter_eq_nil_iff]
    intro a ha
    simp [hne a ha]
  · rintro ⟨r, hr, hk⟩ h0
    unfold teamCount at h0
    rw [List.length_eq_zero, List.filter_eq_nil_iff] at h0
    exact h0 r hr (by simp [hk])

theorem rank_key_mem (rows : List Row) (k : String) :
    (∃ g ∈ rank rows, g.teamId = k) ↔ ∃ r ∈ rows, getTeamKey r = k := by
  have hperm := List.mergeSort_perm (rows.foldl rankStep [])
    (fun a b => decide (b.total ≤ a.total))
  constructor
  · rintro ⟨g, hg, rfl⟩
    exact (teamCount_ne_zero_iff rows g.teamId).mp
      ((fold_key_mem rows g.teamId).mp ⟨g, hperm.mem_iff.mp hg, rfl⟩)
  · intro h
    rcases (fold_key_mem rows k).mpr
      ((teamCount_ne_zero_iff rows k).mpr h) with ⟨g, hg, hk⟩
    exact ⟨g, hperm.mem_iff.mpr hg, hk⟩

theorem rank_sorted_pairwise (rows : List Row) :
    List.Pairwise (fun a b => b.total ≤ a.total) (rank rows) := by
  have h := @List.sorted_mergeSort RankingRow
    (fun a b : RankingRow => decide (b.total ≤ a.total))
    (fun a b c hab hbc => by
      simp only [decide_eq_true_eq] at *
      omega)
    (fun a b => by
      rcases Int.le_total b.total a.total with h | h <;> simp [h])
    (rows.foldl rankStep [])
  exact h.imp (fun hab => of_decide_eq_true hab)

theorem rowScoreD_eq_subSum {r : Row} (h : (rowScore r).isSome = true) :
    rowScoreD r = subSum r := by
  cases h1 : r.problem_relevance <;> cases h2 : r.technical_feasibility <;>
    cases h3 : r.statement_alignment <;> cases h4 : r.creativity <;>
    cases h5 : r.presentation <;> cases h6 : r.google_tech_use <;>
    simp_all [rowScoreD, rowScore, subSum, jsAdd]

theorem teamTotal_perm {rows1 rows2 : List Row} (h : rows1.Perm rows2)
    (k : String) : teamTotal rows1 k = teamTotal rows2 k :=
  ((h.filter _).map rowScoreD).sum_eq

theorem teamCount_perm {rows1 rows2 : List Row} (h : rows1.Perm rows2)
    (k : String) : teamCount rows1 k = teamCount rows2 k :=
  (h.filter _).length_eq

theorem teamTotal_append_single (rows : List Row) (r : Row) (k : String) :
    teamTotal (rows ++ [r]) k =
      teamTotal rows k + (if getTeamKey r = k then rowScoreD r else 0) := by
  by_cases h : getTeamKey r = k <;>
    simp [teamTotal, List.filter_append, List.filter_cons, h]

theorem teamCount_append_single (rows : List Row) (r : Row) (k : String) :
    teamCount (rows ++ [r]) k =
      teamCount rows k + (if getTeamKey r = k then 1 else 0) := by
  by_cases h : getTeamKey r = k <;>
    simp [teamCount, List.filter_append, List.filter_cons, h]

theorem rank_keys_dedup (rows : List Row) :
    ((rank rows).map (fun g => g.teamId)).Perm
      ((rows.map getTeamKey).dedup) := by
  have h1 : ((rank rows).map (fun g => g.teamId)).Perm
      ((rows.foldl rankStep []).map (fun g => g.teamId)) :=
    (List.mergeSort_perm (rows.foldl rankStep [])
      (fun a b => decide (b.total ≤ a.total))).map _
  have hnd1 : ((rows.foldl rankStep []).map (fun g => g.teamId)).Nodup :=
    nodup_keys_foldl rows [] (by simp)
  have hnd2 : ((rows.map getTeamKey).dedup).Nodup := List.nodup_dedup _
  refine h1.trans ((List.perm_ext_iff_of_nodup hnd1 hnd2).mpr ?_)
  intro k
  rw [List.mem_dedup, List.mem_map, List.mem_map]
  constructor
  · rintro ⟨g, hg, rfl⟩
    exact (teamCount_ne_zero_iff rows g.teamId).mp
      ((fold_key_mem rows g.teamId).mp ⟨g, hg, rfl⟩)
  · rintro ⟨r, hr, rfl⟩
    rcases (fold_key_mem rows (getTeamKey r)).mpr
      ((teamCount_ne_zero_iff rows (getTeamKey r)).mpr
        ⟨r, hr, rfl⟩) with ⟨g, hg, hk⟩
    exact ⟨g, hg, hk⟩

/-! ### C4: grouping, totals, judge counts, sort order -/

/-- C4. The ranking groups rows by the team key (team identifier with the
team-label and `"Unknown Team"` fallbacks baked into `getTeamKey`): when all
rows carry finite sub-scores, each output line's total is the sum over its
group's rows of the sum of the six sub-scores and its judge count is the
number of rows in the group; the output is sorted in descending order of
total; and the output team keys are exactly the distinct team keys of the
input rows. -/
theorem rank_groups_totals_sorted :
    (∀ (rows : List Row) (g : RankingRow),
        (∀ r ∈ rows, (rowScore r).isSome = true) →
        g ∈ rank rows →
        g.total = ((rows.filter (fun r => decide (getTeamKey r =
            g.teamId))).map subSum).sum ∧
        g.judgesCount = (rows.filter (fun r => decide (getTeamKey r =
            g.teamId))).length) ∧
    (∀ rows : List Row,
      List.Pairwise (fun a b => b.total ≤ a.total) (rank rows)) ∧
    (∀ rows : List Row,
      ((rank rows).map (fun g => g.teamId)).Perm
        ((rows.map getTeamKey).dedup)) := by
  refine ⟨?_, rank_sorted_pairwise, rank_keys_dedup⟩
  intro rows g hall hg
  have hspec := rank_entry_spec hg
  constructor
  · rw [hspec.1]
    unfold teamTotal
    refine congrArg List.sum (List.map_congr_left ?_)
    intro r hr
    exact rowScoreD_eq_subSum (hall r (List.mem_filter.mp hr).1)
  · exact hspec.2.1

/-! ### C5: permutation invariance -/

/-- C5. Permuting the ranking's input rows changes neither any team's total
nor any team's judge count: lines for the same team key in the two outputs
agree on total and judge count, and the two outputs carry the same multiset
of team keys; only the order of lines (among equal totals) can differ. -/
theorem rank_permutation_invariant :
    (∀ (rows1 rows2 : List Row) (g1 g2 : RankingRow),
        rows1.Perm rows2 →
        g1 ∈ rank rows1 → g2 ∈ rank rows2 → g1.teamId = g2.teamId →
        g1.total = g2.total ∧ g1.judgesCount = g2.judgesCount) ∧
    (∀ rows1 rows2 : List Row, rows1.Perm rows2 →
        ((rank rows1).map (fun g => g.teamId)).Perm
          ((rank rows2).map (fun g => g.teamId))) := by
  constructor
  · intro rows1 rows2 g1 g2 hp h1 h2 hk
    have s1 := rank_entry_spec h1
    have s2 := rank_entry_spec h2
    constructor
    · rw [s1.1, s2.1, hk, teamTotal_perm hp]
    · rw [s1.2.1, s2.2.1, hk, teamCount_perm hp]
  · intro rows1 rows2 hp
    exact (rank_keys_dedup rows1).trans
      (((hp.map getTeamKey).dedup).trans (rank_keys_dedup rows2).symm)

/-! ### C10: non-finite rows -/

/-- C10. A row whose six sub-scores do not all coerce to finite numbers
contributes 0 to its team's total — every line of the ranking over
`rows ++ [r]` has the total it would have over `rows` alone — while the
judge count still equals the number of rows grouped under the team, so the
bad row's team gains exactly one judge. -/
theorem nonfinite_row_counts_without_total :
    ∀ (rows : List Row) (r : Row) (g : RankingRow),
      rowScore r = none →
      g ∈ rank (rows ++ [r]) →
      g.total = teamTotal rows g.teamId ∧
      g.judgesCount = teamCount (rows ++ [r]) g.teamId ∧
      (g.teamId = getTeamKey r →
        g.judgesCount = teamCount rows (getTeamKey r) + 1) := by
  intro rows r g hnone hg
  have hspec := rank_entry_spec hg
  have hD : rowScoreD r = 0 := by simp [rowScoreD, hnone]
  refine ⟨?_, hspec.2.1, ?_⟩
  · rw [hspec.1, teamTotal_append_single]
    by_cases h : getTeamKey r = g.teamId <;> simp [h, hD]
  · intro hk
    rw [hspec.2.1, hk, teamCount_append_single, if_pos rfl]

/-- Concrete instantiation of `rank_groups_totals_sorted` on two rows for
two teams. -/
theorem rank_groups_totals_sorted_witness :
    (wTopLine.total = (([wRow, wRowT2].filter (fun r =>
        decide (getTeamKey r = wTopLine.teamId))).map subSum).sum ∧
      wTopLine.judgesCount = ([wRow, wRowT2].filter (fun r =>
        decide (getTeamKey r = wTopLine.teamId))).length) ∧
    List.Pairwise (fun a b => b.total ≤ a.total) (rank [wRow, wRowT2]) ∧
    ((rank [wRow, wRowT2]).map (fun g => g.teamId)).Perm
      (([wRow, wRowT2].map getTeamKey).dedup) := by
  refine ⟨rank_groups_totals_sorted.1 [wRow, wRowT2] wTopLine (by decide)
      ?_,
    rank_groups_totals_sorted.2.1 [wRow, wRowT2],
    rank_groups_totals_sorted.2.2 [wRow, wRowT2]⟩
  exact (List.mergeSort_perm ([wRow, wRowT2].foldl rankStep [])
    (fun a b => decide (b.total ≤ a.total))).mem_iff.mpr (by decide)

/-- Concrete instantiation of `rank_permutation_invariant`: swapping two
rows of one team leaves its total and judge count unchanged (only the
retained label differs). -/
theorem rank_permutation_invariant_witness :
    (wLineAlpha.total = wLineBeta.total ∧
      wLineAlpha.judgesCount = wLineBeta.judgesCount) ∧
    ((rank [wRowA, wRowB]).map (fun g => g.teamId)).Perm
      ((rank [wRowB, wRowA]).map (fun g => g.teamId)) := by
  refine ⟨rank_permutation_invariant.1 [wRowA, wRowB] [wRowB, wRowA]
      wLineAlpha wLineBeta (List.Perm.swap wRowB wRowA []) ?_ ?_ rfl,
    rank_permutation_invariant.2 [wRowA, wRowB] [wRowB, wRowA]
      (List.Perm.swap wRowB wRowA [])⟩
  · exact (List.mergeSort_perm ([wRowA, wRowB].foldl rankStep [])
      (fun a b => decide (b.total ≤ a.total))).mem_iff.mpr (by decide)
  · exact (List.mergeSort_perm ([wRowB, wRowA].foldl rankStep [])
      (fun a b => decide (b.total ≤ a.total))).mem_iff.mpr (by decide)

/-- Concrete instantiation of `nonfinite_row_counts_without_total`: a row
with a non-numeric sub-score leaves its team's total at 0 but counts as one
judge. -/
theorem nonfinite_row_counts_witness :
    wZeroLine.total = teamTotal [wRow] wZeroLine.teamId ∧
    wZeroLine.judgesCount = teamCount ([wRow] ++ [wBadRow])
      wZeroLine.teamId ∧
    (wZeroLine.teamId = getTeamKey wBadRow →
      wZeroLine.judgesCount = teamCount [wRow] (getTeamKey wBadRow) + 1) := by
  refine nonfinite_row_counts_without_total [wRow] wBadRow wZeroLine
    (by decide) ?_
  exact (List.mergeSort_perm (([wRow] ++ [wBadRow]).foldl rankStep [])
    (fun a b => decide (b.total ≤ a.total))).mem_iff.mpr (by decide)
